import Mathlib

/-!
Verification of the per-test verification pipeline of `ui_test`
(`src/per_test_config.rs`): the annotation-matching algorithm
(`check_annotations`), baseline output reconciliation (`check_output`)
and external command construction (`build_command`).

The embedding is shallow: the mutable `Vec` collections of the source
become lists, `errors.push` becomes list extension, and removal of a
matched diagnostic becomes `List.eraseIdx`.  The `NonZeroUsize::new(..)
.expect(..)` panic in the exhaustiveness pass is modelled by returning
`Option`: `none` is the panic.  Pattern matching (`Pattern::matches`,
an external regex/substring engine from the parser crate) is kept
abstract as a boolean-valued parameter `pm : String → String → Bool`
applied to the pattern text and the message text.
-/

namespace UiTest

/-- Modelled from the spec: the severity ladder of `rustc_stderr::Level`
(not under `src/`); the spec fixes the total order
Error > Warning > Note > Help, with `Error` the highest. -/
inductive Level where
  | Help
  | Note
  | Warning
  | Error
deriving DecidableEq, Repr

/-- Numeric rank of a severity; `Error` is the highest. -/
def Level.toNat : Level → Nat
  | .Help => 0
  | .Note => 1
  | .Warning => 2
  | .Error => 3

/-- Boolean order on severities (`a ≤ b`). -/
def Level.ble (a b : Level) : Bool :=
  Nat.ble a.toNat b.toNat

/-- Boolean strict order on severities (`a < b`). -/
def Level.blt (a b : Level) : Bool :=
  Nat.blt a.toNat b.toNat

/-- One diagnostic produced by the compiler invocation
(`rustc_stderr::Message`): a severity, an optional diagnostic code and
the free-text content. -/
structure Message where
  level : Level
  code : Option String
  message : String
deriving DecidableEq, Repr

/-- The two kinds of `//~` annotations (`parser::ErrorMatchKind`): an
expected diagnostic code, or an expected text pattern with an expected
severity.  Spans are modelled as natural numbers; the pattern itself is
its text. -/
inductive ErrorMatchKind where
  | Code (code : String) (span : Nat)
  | Pattern (pattern : String) (span : Nat) (level : Level)
deriving DecidableEq, Repr

/-- The span carried by a directive kind, recorded in
`seen_error_match` by `check_annotations`. -/
def kindSpan : ErrorMatchKind → Nat
  | .Code _ sp => sp
  | .Pattern _ sp _ => sp

/-- A line-anchored expected-error directive (`parser::ErrorMatch`):
a kind plus the expected (1-based) source line.  The source stores the
line as `NonZeroUsize`; here it is a `Nat`, and no theorem relies on it
being nonzero. -/
structure ErrorMatch where
  kind : ErrorMatchKind
  line : Nat
deriving DecidableEq, Repr

/-- The structured errors pushed by the checked functions (the relevant
variants of `crate::Error`).  Paths are strings, byte vectors are
`List Nat`, spans are naturals; the `ErrorsWithoutPattern` path is
`none` for the unknown-file/line group and `some (path, line)` for a
line bucket of the tested file. -/
inductive Error where
  | OutputDiffers (path : String) (actual : List Nat) (expected : List Nat)
      (bless_command : Option String)
  | PatternNotFound (pattern : String) (expected_line : Option Nat)
  | CodeNotFound (code : String) (expected_line : Option Nat)
  | ErrorsWithoutPattern (path : Option (String × Nat)) (msgs : List Message)
  | PatternFoundInPassTest (mode : Nat) (span : Nat)
  | NoPatternsFound
deriving DecidableEq, Repr

/-- Whether an error is an `ErrorsWithoutPattern`. -/
def Error.isEwp : Error → Bool
  | .ErrorsWithoutPattern _ _ => true
  | _ => false

/-- Modelled from the spec: `crate::Mode` (not under `src/`), with the
fields `check_annotations` inspects: `Pass`, `Panic`,
`Fail { require_patterns }` and `Yolo`. -/
inductive Mode where
  | Pass
  | Panic
  | Fail (require_patterns : Bool)
  | Yolo
deriving DecidableEq, Repr

/-- The `matches!(*mode, Mode::Yolo { .. })` test. -/
def Mode.isYolo : Mode → Bool
  | .Yolo => true
  | _ => false

/-- `crate::OutputConflictHandling`: compare against the baseline,
overwrite it, or ignore it. -/
inductive OutputConflictHandling where
  | Error
  | Bless
  | Ignore
deriving DecidableEq, Repr

/-- Index of the first element satisfying `p`
(`Iterator::position` of the source). -/
def findPos (p : α → Bool) : List α → Option Nat
  | [] => none
  | x :: xs => if p x then some 0 else (findPos p xs).map (· + 1)

/-- Character-list core of `str::strip_prefix`. -/
def stripPreList : List Char → List Char → Option (List Char)
  | [], s => some s
  | _ :: _, [] => none
  | p :: ps, c :: cs => if p = c then stripPreList ps cs else none

/-- `str::strip_prefix`: `some` of the remainder when the first string
starts the second, else `none`. -/
def stripPre? (pre s : String) : Option String :=
  (stripPreList pre.toList s.toList).map List.asString

/-- The `filter` closure of `check_annotations`: retain the messages
whose level is at least the required annotation level. -/
def filterMsgs (req : Level) (msgs : List Message) : List Message :=
  msgs.filter fun m => Level.ble req m.level

/-- Total number of messages across all line buckets. -/
def countMsgs (messages : List (List Message)) : Nat :=
  (messages.map List.length).sum

/-- The per-message test a directive performs inside a line bucket:
a pattern must match the text with equal severity; a code directive
needs an `Error`-severity message whose code, stripped of the
diagnostic-code prefix, equals the expected code (messages without a
code, or whose code does not start with the prefix, are skipped). -/
def matchPred (pm : String → String → Bool) (pre : String) :
    ErrorMatchKind → Message → Bool
  | .Pattern pat _ lvl, msg => pm pat msg.message && msg.level == lvl
  | .Code code _, msg =>
    msg.level == .Error &&
      match msg.code with
      | some c =>
        match stripPre? pre c with
        | some stripped => stripped == code
        | none => false
      | none => false

/-- The `lowest_annotation_level` update: a pattern directive lowers it
to its level when that is lower; a code directive leaves it unchanged. -/
def updLowest (lowest : Level) : ErrorMatchKind → Level
  | .Code _ _ => lowest
  | .Pattern _ _ lvl => if Level.blt lvl lowest then lvl else lowest

/-- The error pushed when a directive finds no matching message:
`PatternNotFound` for a pattern, `CodeNotFound` with the prefix
re-attached for a code, both carrying the expected line. -/
def notFound (pre : String) (line : Nat) : ErrorMatchKind → Error
  | .Pattern pat _ _ => .PatternNotFound pat (some line)
  | .Code code _ => .CodeNotFound (pre ++ code) (some line)

/-- Result of the foreign-file pattern pass: the remaining
unknown-file/line messages, the `seen_error_match` state, and the
errors pushed. -/
structure Step1Result where
  unknown : List Message
  seen : Option Nat
  errors : List Error
deriving DecidableEq, Repr

/-- The first loop of `check_annotations`: for each
`error-in-other-file` pattern in directive order, record its span in
`seen_error_match`, then remove the first matching message from the
unknown-file/line list, or push `PatternNotFound` with no expected
line. -/
def step1 (pm : String → String → Bool) :
    List (String × Nat) → List Message → Option Nat → Step1Result
  | [], unknown, seen => ⟨unknown, seen, []⟩
  | (pat, sp) :: rest, unknown, _ =>
    match findPos (fun msg => pm pat msg.message) unknown with
    | some i => step1 pm rest (unknown.eraseIdx i) (some sp)
    | none =>
      let r := step1 pm rest unknown (some sp)
      ⟨r.unknown, r.seen, .PatternNotFound pat none :: r.errors⟩

/-- Result of the line-anchored directive pass: the remaining line
buckets, the lowest annotation level, the `seen_error_match` state, and
the errors pushed. -/
structure Step2Result where
  messages : List (List Message)
  lowest : Level
  seen : Option Nat
  errors : List Error
deriving DecidableEq, Repr

/-- The `'err` loop of `check_annotations`: for each `ErrorMatch` in
directive order, record its span, update the lowest annotation level
(patterns only), look up the bucket at the expected line, and either
remove the first message satisfying the directive or push the
corresponding not-found error (also when the bucket is absent). -/
def step2 (pm : String → String → Bool) (pre : String) :
    List ErrorMatch → List (List Message) → Level → Option Nat → Step2Result
  | [], messages, lowest, seen => ⟨messages, lowest, seen, []⟩
  | ⟨kind, line⟩ :: rest, messages, lowest, _ =>
    let lowest := updLowest lowest kind
    let seen := some (kindSpan kind)
    match messages[line]? with
    | some msgs =>
      match findPos (matchPred pm pre kind) msgs with
      | some i => step2 pm pre rest (messages.set line (msgs.eraseIdx i)) lowest seen
      | none =>
        let r := step2 pm pre rest messages lowest seen
        ⟨r.messages, r.lowest, r.seen, notFound pre line kind :: r.errors⟩
    | none =>
      let r := step2 pm pre rest messages lowest seen
      ⟨r.messages, r.lowest, r.seen, notFound pre line kind :: r.errors⟩

/-- The exhaustiveness loop over the line buckets
(`for (line, msgs) in messages.into_iter().enumerate()`): each bucket
that is non-empty after filtering yields an `ErrorsWithoutPattern`
carrying the tested file's path and the line; a populated bucket at
line 0 hits the `NonZeroUsize::new(line).expect(..)` panic, modelled
as `none`. -/
def step4lines (path : String) (req : Level) :
    Nat → List (List Message) → Option (List Error)
  | _, [] => some []
  | line, b :: rest =>
    let f := filterMsgs req b
    if f.isEmpty then step4lines path req (line + 1) rest
    else
      match line with
      | 0 => none
      | _ + 1 =>
        (step4lines path req (line + 1) rest).map
          fun es => Error.ErrorsWithoutPattern (some (path, line)) f :: es

/-- The final mode cross-check of `check_annotations`: `Pass`/`Panic`
with a seen error-match directive pushes `PatternFoundInPassTest`;
`Fail` requiring patterns with none seen pushes `NoPatternsFound`. -/
def modeErrors (mode : Mode) (modeSpan : Nat) (seen : Option Nat) : List Error :=
  match mode, seen with
  | .Pass, some sp => [.PatternFoundInPassTest modeSpan sp]
  | .Panic, some sp => [.PatternFoundInPassTest modeSpan sp]
  | .Fail true, none => [.NoPatternsFound]
  | _, _ => []

/-- The per-test inputs of `check_annotations` that come from the
comment store, already resolved for the applicable revisions: the
`error_in_other_files` patterns (text and span) in directive order, the
diagnostic-code prefix, the `error_matches` in directive order, the
optional `require_annotations_for_level` override, the mode with its
span, and the tested file's path. -/
structure CheckInput where
  errorInOtherFiles : List (String × Nat)
  diagCodePre : String
  errorMatches : List ErrorMatch
  requireAnnotationsForLevel : Option Level
  mode : Mode
  modeSpan : Nat
  path : String

/-- `TestConfig::check_annotations`: runs the foreign-file pass, the
line-anchored pass, resolves the required annotation level (the
configured override, else the lowest annotation level), and unless the
mode is `Yolo` reports every remaining message at or above that level —
one `ErrorsWithoutPattern` with no path for the unknown-file/line
group, one per populated line bucket — before the mode cross-check.
The result is the list of errors pushed, in push order; `none` is the
line-0 panic of the exhaustiveness loop. -/
def check_annotations (pm : String → String → Bool) (inp : CheckInput)
    (messages : List (List Message)) (unknown : List Message) :
    Option (List Error) :=
  let r1 := step1 pm inp.errorInOtherFiles unknown none
  let r2 := step2 pm inp.diagCodePre inp.errorMatches messages Level.Error r1.seen
  let required := inp.requireAnnotationsForLevel.getD r2.lowest
  let tail := modeErrors inp.mode inp.modeSpan r2.seen
  if inp.mode.isYolo then
    some (r1.errors ++ r2.errors ++ tail)
  else
    let fu := filterMsgs required r1.unknown
    let head := if fu.isEmpty then [] else [Error.ErrorsWithoutPattern none fu]
    (step4lines inp.path required 0 r2.messages).map
      fun lineErrs => r1.errors ++ r2.errors ++ head ++ lineErrs ++ tail

/-- Result of `check_output`: the baseline file's content after the
call (`none` when the file is absent), the errors vector after the
call, and the returned path. -/
structure CheckOutputResult where
  file : Option (List Nat)
  errors : List Error
  ret : String
deriving DecidableEq, Repr

/-- `TestConfig::check_output` on the already-normalized output bytes:
under `Error`, read the baseline (absence is empty content) and push
`OutputDiffers` when the bytes differ, leaving the file untouched;
under `Bless`, delete the file when the output is empty, else write the
output; under `Ignore`, do nothing.  The baseline file is modelled as
`Option` of its byte content, the filesystem calls as pure state. -/
def check_output (policy : OutputConflictHandling) (output : List Nat)
    (baseline : Option (List Nat)) (path : String) (blessCmd : Option String)
    (errors : List Error) : CheckOutputResult :=
  match policy with
  | .Error =>
    let expected := baseline.getD []
    if output ≠ expected then
      ⟨baseline,
        errors ++ [.OutputDiffers path output expected blessCmd], path⟩
    else
      ⟨baseline, errors, path⟩
  | .Bless =>
    if output.isEmpty then ⟨none, errors, path⟩
    else ⟨some output, errors, path⟩
  | .Ignore => ⟨baseline, errors, path⟩

/-- An external process command: its argument list and its environment
map, the latter kept as the insertion sequence (`Command::envs`
inserts in order, later keys overwriting earlier ones, which
`lookupEnv` reads off by scanning from the right). -/
structure Cmd where
  args : List String
  envs : List (String × String)
deriving DecidableEq, Repr

/-- The value an environment variable holds in a command: the last
inserted binding of that key. -/
def lookupEnv (cmd : Cmd) (k : String) : Option String :=
  (cmd.envs.reverse.find? fun kv => kv.1 == k).map (·.2)

/-- The per-revision data `build_command` consumes
(`parser::Revisioned`, restricted to the fields used): the compile
flags, the environment variables, and the custom flags.  Modelled from
the spec: a custom flag's `apply` (the `Flag` trait is not under
`src/`) contributes command-line arguments, so each custom flag is its
contributed argument list, kept in the revision's flag-map order. -/
structure Revisioned where
  compile_flags : List String
  env_vars : List (String × String)
  custom : List (List String)

/-- Application of one revision's custom flags in order, each appending
its contribution to the command line. -/
def applyFlags : List (List String) → Cmd → Cmd
  | [], cmd => cmd
  | f :: fs, cmd => applyFlags fs { cmd with args := cmd.args ++ f }

/-- `TestConfig::apply_custom`: for each applicable revision in order,
apply each of its custom flags to the command. -/
def apply_custom : List Revisioned → Cmd → Cmd
  | [], cmd => cmd
  | rev :: rest, cmd => apply_custom rest (applyFlags rev.custom cmd)

/-- `TestConfig::build_command`: starting from the base program
invocation (`config.program.build(&out_dir)`, external, given as
`baseCmd`), append the aux-build extra arguments, the tested file's
path, a `--cfg=<revision>` flag when the revision is non-empty, every
compile flag of every applicable revision in order, the custom-flag
contributions, and a `--target` flag only when a target is configured
that differs from the host; finally set every applicable revision's
environment variables in order. -/
def build_command (baseCmd : Cmd) (extraArgs : List String) (path : String)
    (revision : String) (revs : List Revisioned) (target : Option String)
    (hostMatchesTarget : Bool) : Cmd :=
  let cmd := { baseCmd with args := baseCmd.args ++ extraArgs }
  let cmd := { cmd with args := cmd.args ++ [path] }
  let cmd :=
    if revision.isEmpty then cmd
    else { cmd with args := cmd.args ++ ["--cfg=" ++ revision] }
  let cmd := { cmd with args := cmd.args ++ revs.flatMap Revisioned.compile_flags }
  let cmd := apply_custom revs cmd
  let cmd :=
    match target with
    | some t =>
      if hostMatchesTarget then cmd
      else { cmd with args := cmd.args ++ ["--target", t] }
    | none => cmd
  { cmd with envs := cmd.envs ++ revs.flatMap Revisioned.env_vars }

/-- The exhaustiveness errors as the spec words them: one
`ErrorsWithoutPattern` with no path when the unknown-file/line group
still holds a message at or above the required level, and one per
non-empty line bucket, carrying the tested file's path and that line. -/
def specEwp (path : String) (req : Level) (unknown : List Message)
    (buckets : List (List Message)) : List Error :=
  let u := filterMsgs req unknown
  (if u.isEmpty then [] else [Error.ErrorsWithoutPattern none u]) ++
    buckets.enum.filterMap fun lb =>
      let f := filterMsgs req lb.2
      if f.isEmpty then none
      else some (Error.ErrorsWithoutPattern (some (path, lb.1)) f)

/-- The lowest annotation level determined by a directive list: starts
at the given level, lowered by each pattern directive to its level when
lower, never changed by a code directive. -/
def lowestFrom (l : Level) : List ErrorMatch → Level
  | [] => l
  | em :: rest => lowestFrom (updLowest l em.kind) rest

/-! ## Helper lemmas -/

theorem step2_cons (pm : String → String → Bool) (pre : String) (d : ErrorMatch)
    (rest : List ErrorMatch) (messages : List (List Message)) (lowest : Level)
    (seen : Option Nat) :
    step2 pm pre (d :: rest) messages lowest seen =
      (let r1 := step2 pm pre [d] messages lowest seen
       let r2 := step2 pm pre rest r1.messages r1.lowest r1.seen
       ⟨r2.messages, r2.lowest, r2.seen, r1.errors ++ r2.errors⟩) := by
  obtain ⟨kind, line⟩ := d
  simp only [step2]
  cases h : messages[line]? with
  | none => simp [step2]
  | some msgs =>
    cases h2 : findPos (matchPred pm pre kind) msgs with
    | none => simp [step2, h2]
    | some i => simp [step2, h2]

theorem findPos_lt_length {p : α → Bool} :
    ∀ {l : List α} {i : Nat}, findPos p l = some i → i < l.length := by
  intro l
  induction l with
  | nil => intro i h; simp [findPos] at h
  | cons x xs ih =>
    intro i h
    simp only [findPos] at h
    by_cases hx : p x
    · rw [if_pos hx] at h
      cases h
      simp
    · rw [if_neg hx] at h
      simp only [Option.map_eq_some'] at h
      obtain ⟨j, hj, rfl⟩ := h
      have := ih hj
      simp only [List.length_cons]
      omega

theorem countMsgs_cons (b : List Message) (bs : List (List Message)) :
    countMsgs (b :: bs) = b.length + countMsgs bs := by
  simp [countMsgs]

theorem countMsgs_set :
    ∀ (messages : List (List Message)) (line : Nat) (msgs b : List Message),
      messages[line]? = some msgs →
      countMsgs (messages.set line b) + msgs.length = countMsgs messages + b.length := by
  intro messages
  induction messages with
  | nil => intro line msgs b h; simp at h
  | cons m ms ih =>
    intro line msgs b h
    cases line with
    | zero =>
      simp at h
      subst h
      simp [List.set, countMsgs_cons]
      omega
    | succ n =>
      simp at h
      have := ih n msgs b h
      simp [List.set, countMsgs_cons]
      omega

theorem getElem?_zero_set (l : List α) (i : Nat) (a : α) (h : i ≠ 0) :
    (l.set i a)[0]? = l[0]? := by
  cases l with
  | nil => rfl
  | cons x xs =>
    cases i with
    | zero => exact absurd rfl h
    | succ n => simp

theorem step2_lowest (pm : String → String → Bool) (pre : String) :
    ∀ (ems : List ErrorMatch) (messages : List (List Message)) (lowest : Level)
      (seen : Option Nat),
      (step2 pm pre ems messages lowest seen).lowest = lowestFrom lowest ems := by
  intro ems
  induction ems with
  | nil => intro messages lowest seen; rfl
  | cons em rest ih =>
    intro messages lowest seen
    obtain ⟨kind, line⟩ := em
    simp only [step2, lowestFrom]
    cases h : messages[line]? with
    | none => simp [ih]
    | some msgs =>
      cases h2 : findPos (matchPred pm pre kind) msgs with
      | none => simp [h2, ih]
      | some i => simp [h2, ih]

theorem step1_seen_isSome (pm : String → String → Bool) :
    ∀ (ps : List (String × Nat)) (u : List Message) (s : Option Nat),
      ps ≠ [] → ((step1 pm ps u s).seen).isSome = true := by
  intro ps
  induction ps with
  | nil => intro u s h; exact absurd rfl h
  | cons head rest ih =>
    intro u s _
    obtain ⟨pat, sp⟩ := head
    simp only [step1]
    cases h : findPos (fun msg => pm pat msg.message) u with
    | some i =>
      cases rest with
      | nil => simp [step1]
      | cons b bs => exact ih _ _ (by simp)
    | none =>
      cases rest with
      | nil => simp [step1]
      | cons b bs => simpa using ih u (some sp) (by simp)

theorem step2_seen_isSome (pm : String → String → Bool) (pre : String) :
    ∀ (ems : List ErrorMatch) (messages : List (List Message)) (lowest : Level)
      (seen : Option Nat),
      ems ≠ [] → ((step2 pm pre ems messages lowest seen).seen).isSome = true := by
  intro ems
  induction ems with
  | nil => intro _ _ _ h; exact absurd rfl h
  | cons em rest ih =>
    intro messages lowest seen _
    obtain ⟨kind, line⟩ := em
    simp only [step2]
    cases h : messages[line]? with
    | none =>
      cases rest with
      | nil => simp [step2]
      | cons b bs => simpa using ih _ _ _ (by simp)
    | some msgs =>
      cases h2 : findPos (matchPred pm pre kind) msgs with
      | none =>
        simp only [h2]
        cases rest with
        | nil => simp [step2]
        | cons b bs => simpa using ih _ _ _ (by simp)
      | some i =>
        simp only [h2]
        cases rest with
        | nil => simp [step2]
        | cons b bs => exact ih _ _ _ (by simp)

theorem notFound_not_ewp (pre : String) (line : Nat) (kind : ErrorMatchKind) :
    (notFound pre line kind).isEwp = false := by
  cases kind <;> rfl

theorem step1_not_ewp (pm : String → String → Bool) :
    ∀ (ps : List (String × Nat)) (u : List Message) (s : Option Nat),
      ∀ e ∈ (step1 pm ps u s).errors, e.isEwp = false := by
  intro ps
  induction ps with
  | nil => intro u s e h; simp [step1] at h
  | cons head rest ih =>
    intro u s e h
    obtain ⟨pat, sp⟩ := head
    simp only [step1] at h
    split at h
    · exact ih _ _ e h
    · simp only [List.mem_cons] at h
      rcases h with h | h
      · subst h; rfl
      · exact ih _ _ e h

theorem step2_not_ewp (pm : String → String → Bool) (pre : String) :
    ∀ (ems : List ErrorMatch) (messages : List (List Message)) (lowest : Level)
      (seen : Option Nat),
      ∀ e ∈ (step2 pm pre ems messages lowest seen).errors, e.isEwp = false := by
  intro ems
  induction ems with
  | nil => intro _ _ _ e h; simp [step2] at h
  | cons em rest ih =>
    intro messages lowest seen e h
    obtain ⟨kind, line⟩ := em
    simp only [step2] at h
    split at h
    · split at h
      · exact ih _ _ _ e h
      · simp only [List.mem_cons] at h
        rcases h with h | h
        · subst h; exact notFound_not_ewp _ _ _
        · exact ih _ _ _ e h
    · simp only [List.mem_cons] at h
      rcases h with h | h
      · subst h; exact notFound_not_ewp _ _ _
      · exact ih _ _ _ e h

theorem modeErrors_not_ewp (mode : Mode) (modeSpan : Nat) (seen : Option Nat) :
    ∀ e ∈ modeErrors mode modeSpan seen, e.isEwp = false := by
  intro e h
  cases mode with
  | Pass => cases seen <;> simp [modeErrors] at h <;> simp [h, Error.isEwp]
  | Panic => cases seen <;> simp [modeErrors] at h <;> simp [h, Error.isEwp]
  | Yolo => cases seen <;> simp [modeErrors] at h
  | Fail b =>
    cases b <;> cases seen <;> simp [modeErrors] at h
    simp [h, Error.isEwp]

theorem step4lines_eq (path : String) (req : Level) :
    ∀ (bs : List (List Message)) (n : Nat) (es : List Error),
      step4lines path req n bs = some es →
      es = (List.enumFrom n bs).filterMap fun lb =>
        let f := filterMsgs req lb.2
        if f.isEmpty then none
        else some (Error.ErrorsWithoutPattern (some (path, lb.1)) f) := by
  intro bs
  induction bs with
  | nil =>
    intro n es h
    simp [step4lines] at h
    simp [← h]
  | cons b rest ih =>
    intro n es h
    simp only [step4lines] at h
    by_cases hf : (filterMsgs req b).isEmpty
    · rw [if_pos hf] at h
      have h2 := ih (n + 1) es h
      rw [List.isEmpty_iff] at hf
      simp [List.enumFrom_cons, List.filterMap_cons, hf, h2]
    · rw [if_neg hf] at h
      cases n with
      | zero => simp at h
      | succ m =>
        simp only [Option.map_eq_some'] at h
        obtain ⟨es2, hes2, rfl⟩ := h
        have h2 := ih (m + 2) es2 hes2
        rw [List.isEmpty_iff] at hf
        simp [List.enumFrom_cons, List.filterMap_cons, hf, h2]

theorem step4lines_all_ewp (path : String) (req : Level)
    (bs : List (List Message)) (n : Nat) (es : List Error)
    (h : step4lines path req n bs = some es) : ∀ e ∈ es, e.isEwp = true := by
  intro e he
  rw [step4lines_eq path req bs n es h] at he
  simp only [List.mem_filterMap] at he
  obtain ⟨lb, _, hlb⟩ := he
  by_cases hf : (filterMsgs req lb.2).isEmpty
  · simp [hf] at hlb
  · simp [hf] at hlb
    simp [← hlb, Error.isEwp]

theorem step2_bucket0 (pm : String → String → Bool) (pre : String) :
    ∀ (ems : List ErrorMatch) (messages : List (List Message)) (lowest : Level)
      (seen : Option Nat),
      (messages[0]?).getD [] = [] →
      (((step2 pm pre ems messages lowest seen).messages)[0]?).getD [] = [] := by
  intro ems
  induction ems with
  | nil => intro messages lowest seen h; exact h
  | cons em rest ih =>
    intro messages lowest seen h
    obtain ⟨kind, line⟩ := em
    simp only [step2]
    cases hb : messages[line]? with
    | none => simpa using ih _ _ _ h
    | some msgs =>
      cases h2 : findPos (matchPred pm pre kind) msgs with
      | none =>
        simp only [h2]
        simpa using ih _ _ _ h
      | some i =>
        simp only [h2]
        apply ih
        cases hline : decide (line = 0) with
        | true =>
          simp at hline
          subst hline
          rw [hb] at h
          simp at h
          subst h
          simp [findPos] at h2
        | false =>
          simp at hline
          rw [getElem?_zero_set _ _ _ hline]
          exact h

theorem step4lines_isSome_succ (path : String) (req : Level) :
    ∀ (bs : List (List Message)) (n : Nat),
      (step4lines path req (n + 1) bs).isSome = true := by
  intro bs
  induction bs with
  | nil => intro n; simp [step4lines]
  | cons b rest ih =>
    intro n
    simp only [step4lines]
    by_cases hf : (filterMsgs req b).isEmpty
    · rw [if_pos hf]
      exact ih (n + 1)
    · rw [if_neg hf]
      have := ih (n + 1)
      cases hs : step4lines path req (n + 1 + 1) rest with
      | none => rw [hs] at this; simp at this
      | some es => simp

theorem applyFlags_eq :
    ∀ (fs : List (List String)) (cmd : Cmd),
      applyFlags fs cmd = { cmd with args := cmd.args ++ fs.flatten } := by
  intro fs
  induction fs with
  | nil => intro cmd; simp [applyFlags]
  | cons f rest ih =>
    intro cmd
    simp [applyFlags, ih, List.flatten]

theorem apply_custom_eq :
    ∀ (revs : List Revisioned) (cmd : Cmd),
      apply_custom revs cmd =
        { cmd with args := cmd.args ++ (revs.flatMap Revisioned.custom).flatten } := by
  intro revs
  induction revs with
  | nil => intro cmd; simp [apply_custom]
  | cons rev rest ih =>
    intro cmd
    simp [apply_custom, ih, applyFlags_eq, List.flatMap_cons, List.flatten_append]

theorem Level.blt_irrefl (a : Level) : Level.blt a a = false := by
  cases a <;> rfl

theorem updLowest_idem (l : Level) (k : ErrorMatchKind) :
    updLowest (updLowest l k) k = updLowest l k := by
  cases k with
  | Code c sp => rfl
  | Pattern pat sp lvl =>
    simp only [updLowest]
    by_cases h : Level.blt lvl l
    · rw [if_pos h, if_neg (by simp [Level.blt_irrefl])]
    · rw [if_neg h, if_neg h]

theorem matchPred_pattern (pm : String → String → Bool) (pre pat : String)
    (sp : Nat) (lvl : Level) :
    matchPred pm pre (.Pattern pat sp lvl)
      = fun msg => pm pat msg.message && msg.level == lvl := by
  funext msg; rfl

theorem matchPred_code (pm : String → String → Bool) (pre code : String) (sp : Nat) :
    matchPred pm pre (.Code code sp)
      = fun msg =>
          msg.level == .Error &&
            match msg.code with
            | some c =>
              match stripPre? pre c with
              | some stripped => stripped == code
              | none => false
            | none => false := by
  funext msg; rfl

theorem step1_count (pm : String → String → Bool) :
    ∀ (ps : List (String × Nat)) (u : List Message) (s : Option Nat),
      (step1 pm ps u s).unknown.length + ps.length
        = u.length + (step1 pm ps u s).errors.length := by
  intro ps
  induction ps with
  | nil => intro u s; simp [step1]
  | cons head rest ih =>
    intro u s
    obtain ⟨pat, sp⟩ := head
    simp only [step1]
    split
    next i h2 =>
      have hlen := findPos_lt_length h2
      have hih := ih (u.eraseIdx i) (some sp)
      have hel : (u.eraseIdx i).length + 1 = u.length := by
        rw [List.length_eraseIdx_of_lt hlen]
        omega
      simp only [List.length_cons]
      omega
    next h2 =>
      have hih := ih u (some sp)
      simp only [List.length_cons]
      omega

theorem step2_count (pm : String → String → Bool) (pre : String) :
    ∀ (ems : List ErrorMatch) (messages : List (List Message)) (lowest : Level)
      (seen : Option Nat),
      countMsgs (step2 pm pre ems messages lowest seen).messages + ems.length
        = countMsgs messages + (step2 pm pre ems messages lowest seen).errors.length := by
  intro ems
  induction ems with
  | nil => intro messages lowest seen; simp [step2]
  | cons em rest ih =>
    intro messages lowest seen
    obtain ⟨kind, line⟩ := em
    simp only [step2]
    split
    next msgs hb =>
      split
      next i h2 =>
        have hlen := findPos_lt_length h2
        have hset := countMsgs_set messages line msgs (msgs.eraseIdx i) hb
        have hel : (msgs.eraseIdx i).length + 1 = msgs.length := by
          rw [List.length_eraseIdx_of_lt hlen]
          omega
        have hih := ih (messages.set line (msgs.eraseIdx i)) (updLowest lowest kind)
          (some (kindSpan kind))
        simp only [List.length_cons]
        omega
      next h2 =>
        have hih := ih messages (updLowest lowest kind) (some (kindSpan kind))
        simp only [List.length_cons]
        omega
    next hb =>
      have hih := ih messages (updLowest lowest kind) (some (kindSpan kind))
      simp only [List.length_cons]
      omega

theorem build_command_envs (baseCmd : Cmd) (extraArgs : List String) (path : String)
    (revision : String) (revs : List Revisioned) (target : Option String)
    (hostMatchesTarget : Bool) :
    (build_command baseCmd extraArgs path revision revs target hostMatchesTarget).envs
      = baseCmd.envs ++ revs.flatMap Revisioned.env_vars := by
  cases target with
  | none =>
    by_cases hr : revision.isEmpty <;>
      simp [build_command, apply_custom_eq, hr]
  | some t =>
    by_cases hr : revision.isEmpty <;> by_cases hh : hostMatchesTarget <;>
      simp [build_command, apply_custom_eq, hr, hh]

/-! ## Claim theorems -/

/-- C1: for a `Pattern { text, level }` directive processed in directive
order (head of the remaining directive list; the first conjunct shows
processing composes in order), `check_annotations` searches the bucket
at the expected line for a message whose text matches the pattern and
whose severity equals the expected level; on success it removes exactly
that message and records no error for the directive; on failure —
including an absent bucket, where the searched bucket defaults to
empty — it records `PatternNotFound` carrying the expected line. -/
theorem C1_pattern_directive (pm : String → String → Bool) (pre pat : String)
    (sp : Nat) (lvl : Level) (line : Nat) (rest : List ErrorMatch)
    (messages : List (List Message)) (lowest : Level) (seen : Option Nat) :
    step2 pm pre (⟨.Pattern pat sp lvl, line⟩ :: rest) messages lowest seen =
      (let r1 := step2 pm pre [⟨.Pattern pat sp lvl, line⟩] messages lowest seen
       let r2 := step2 pm pre rest r1.messages r1.lowest r1.seen
       ⟨r2.messages, r2.lowest, r2.seen, r1.errors ++ r2.errors⟩) ∧
    ((step2 pm pre [⟨.Pattern pat sp lvl, line⟩] messages lowest seen).seen
        = some sp ∧
     match findPos (fun msg => pm pat msg.message && msg.level == lvl)
         ((messages[line]?).getD []) with
     | some i =>
       (step2 pm pre [⟨.Pattern pat sp lvl, line⟩] messages lowest seen).messages
           = messages.set line (((messages[line]?).getD []).eraseIdx i) ∧
       (step2 pm pre [⟨.Pattern pat sp lvl, line⟩] messages lowest seen).errors = []
     | none =>
       (step2 pm pre [⟨.Pattern pat sp lvl, line⟩] messages lowest seen).messages
           = messages ∧
       (step2 pm pre [⟨.Pattern pat sp lvl, line⟩] messages lowest seen).errors
           = [.PatternNotFound pat (some line)]) := by
  refine ⟨step2_cons pm pre _ rest messages lowest seen, ?_⟩
  simp only [step2, matchPred_pattern]
  cases hb : messages[line]? with
  | none => simp [findPos, step2, notFound, kindSpan]
  | some msgs =>
    cases h2 : findPos (fun msg => pm pat msg.message && msg.level == lvl) msgs with
    | none => simp [h2, step2, notFound, kindSpan]
    | some i => simp [h2, step2, kindSpan]

/-- C2: for a `Code` directive processed in directive order (the first
conjunct shows processing composes in order), `check_annotations`
searches the bucket at the expected line for an `Error`-severity
message whose diagnostic code, stripped of the configured prefix,
equals the directive's code; on success it removes exactly that
message; on failure — including an absent bucket — it records
`CodeNotFound` whose rendered code is the prefix re-attached in front
of the directive's code, with the expected line attached. -/
theorem C2_code_directive (pm : String → String → Bool) (pre code : String)
    (sp : Nat) (line : Nat) (rest : List ErrorMatch)
    (messages : List (List Message)) (lowest : Level) (seen : Option Nat) :
    step2 pm pre (⟨.Code code sp, line⟩ :: rest) messages lowest seen =
      (let r1 := step2 pm pre [⟨.Code code sp, line⟩] messages lowest seen
       let r2 := step2 pm pre rest r1.messages r1.lowest r1.seen
       ⟨r2.messages, r2.lowest, r2.seen, r1.errors ++ r2.errors⟩) ∧
    ((step2 pm pre [⟨.Code code sp, line⟩] messages lowest seen).seen = some sp ∧
     match findPos
         (fun msg =>
           msg.level == .Error &&
             match msg.code with
             | some c =>
               match stripPre? pre c with
               | some stripped => stripped == code
               | none => false
             | none => false)
         ((messages[line]?).getD []) with
     | some i =>
       (step2 pm pre [⟨.Code code sp, line⟩] messages lowest seen).messages
           = messages.set line (((messages[line]?).getD []).eraseIdx i) ∧
       (step2 pm pre [⟨.Code code sp, line⟩] messages lowest seen).errors = []
     | none =>
       (step2 pm pre [⟨.Code code sp, line⟩] messages lowest seen).messages
           = messages ∧
       (step2 pm pre [⟨.Code code sp, line⟩] messages lowest seen).errors
           = [.CodeNotFound (pre ++ code) (some line)]) := by
  refine ⟨step2_cons pm pre _ rest messages lowest seen, ?_⟩
  simp only [step2, matchPred_code]
  cases hb : messages[line]? with
  | none => simp [findPos, step2, notFound, kindSpan]
  | some msgs =>
    cases h2 : findPos
        (fun msg =>
          msg.level == .Error &&
            match msg.code with
            | some c =>
              match stripPre? pre c with
              | some stripped => stripped == code
              | none => false
            | none => false) msgs with
    | none => simp [h2, step2, notFound, kindSpan]
    | some i => simp [h2, step2, kindSpan]

/-- C7: under the `Bless` conflict policy, `check_output` writes the
normalized output to the baseline path when it is non-empty and deletes
the baseline file when it is empty; the errors vector is returned
untouched, so no `OutputDiffers` (nor any other error) is ever
recorded under `Bless`. -/
theorem C7_bless_policy (output : List Nat) (baseline : Option (List Nat))
    (path : String) (blessCmd : Option String) (errors : List Error) :
    check_output .Bless output baseline path blessCmd errors
      = ⟨if output.isEmpty then none else some output, errors, path⟩ := by
  by_cases h : output = [] <;> simp [check_output, h]

/-- C8: under the `Error` conflict policy, `check_output` keeps the
baseline file unchanged, and appends an `OutputDiffers` error carrying
the path, the actual output, the expected content (an absent file reads
as empty) and the bless remediation command if and only if the
normalized output differs from the baseline content. -/
theorem C8_error_policy (output : List Nat) (baseline : Option (List Nat))
    (path : String) (blessCmd : Option String) (errors : List Error) :
    check_output .Error output baseline path blessCmd errors
      = ⟨baseline,
          errors ++
            (if output = baseline.getD [] then []
             else [.OutputDiffers path output (baseline.getD []) blessCmd]),
          path⟩ := by
  by_cases h : output = baseline.getD [] <;> simp [check_output, h]

/-- C9: `build_command` produces the arguments in exactly this order:
base invocation, auxiliary-build extra arguments, the tested file's
path, a revision configuration flag only when the revision is
non-empty, every compile flag from every applicable revision in
directive order, the custom-flag contributions, and a target flag only
when a target is configured that differs from the host; the environment
variables of every applicable revision are then set in insertion order,
and looking a key up yields the last binding (later duplicates
overwrite earlier ones), falling back to the base command's value. -/
theorem C9_build_command_order (baseCmd : Cmd) (extraArgs : List String)
    (path : String) (revision : String) (revs : List Revisioned)
    (target : Option String) (hostMatchesTarget : Bool) :
    (build_command baseCmd extraArgs path revision revs target hostMatchesTarget).args
      = baseCmd.args ++ extraArgs ++ [path]
        ++ (if revision.isEmpty then [] else ["--cfg=" ++ revision])
        ++ revs.flatMap Revisioned.compile_flags
        ++ (revs.flatMap Revisioned.custom).flatten
        ++ (match target with
            | some t => if hostMatchesTarget then [] else ["--target", t]
            | none => []) ∧
    (build_command baseCmd extraArgs path revision revs target hostMatchesTarget).envs
      = baseCmd.envs ++ revs.flatMap Revisioned.env_vars ∧
    ∀ k,
      lookupEnv (build_command baseCmd extraArgs path revision revs target
        hostMatchesTarget) k
        = match (revs.flatMap Revisioned.env_vars).reverse.find?
            (fun kv => kv.1 == k) with
          | some kv => some kv.2
          | none => lookupEnv baseCmd k := by
  refine ⟨?_, build_command_envs _ _ _ _ _ _ _, ?_⟩
  · cases target with
    | none =>
      by_cases hr : revision.isEmpty <;>
        simp [build_command, apply_custom_eq, hr, List.append_assoc]
    | some t =>
      by_cases hr : revision.isEmpty <;> by_cases hh : hostMatchesTarget <;>
        simp [build_command, apply_custom_eq, hr, hh, List.append_assoc]
  · intro k
    simp only [lookupEnv, build_command_envs, List.reverse_append, List.find?_append]
    cases hf : (revs.flatMap Revisioned.env_vars).reverse.find? (fun kv => kv.1 == k) with
    | some kv => simp [hf]
    | none => simp [hf, lookupEnv]

/-- C3: after all directive matching, in non-Yolo mode the
`ErrorsWithoutPattern` errors produced are exactly those of `specEwp`:
one with no path for the remaining unknown-file/line messages at or
above the effective required severity, and one per non-empty remaining
line bucket, carrying the tested file's path and that line; the
effective severity is the configured override when present, otherwise
the minimum severity among the pattern directives processed, starting
at `Error` and never lowered by a code directive (`lowestFrom`).  In
Yolo mode no `ErrorsWithoutPattern` is ever produced. -/
theorem C3_errors_without_pattern (pm : String → String → Bool) (inp : CheckInput)
    (messages : List (List Message)) (unknown : List Message) (errs : List Error)
    (h : check_annotations pm inp messages unknown = some errs) :
    (inp.mode.isYolo = true → errs.filter Error.isEwp = []) ∧
    (inp.mode.isYolo = false →
      errs.filter Error.isEwp =
        specEwp inp.path
          (inp.requireAnnotationsForLevel.getD (lowestFrom Level.Error inp.errorMatches))
          (step1 pm inp.errorInOtherFiles unknown none).unknown
          (step2 pm inp.diagCodePre inp.errorMatches messages Level.Error
            (step1 pm inp.errorInOtherFiles unknown none).seen).messages) := by
  have e1 : List.filter Error.isEwp
      (step1 pm inp.errorInOtherFiles unknown none).errors = [] := by
    rw [List.filter_eq_nil_iff]
    intro a ha
    simp [step1_not_ewp pm inp.errorInOtherFiles unknown none a ha]
  have e2 : List.filter Error.isEwp
      (step2 pm inp.diagCodePre inp.errorMatches messages Level.Error
        (step1 pm inp.errorInOtherFiles unknown none).seen).errors = [] := by
    rw [List.filter_eq_nil_iff]
    intro a ha
    simp [step2_not_ewp pm inp.diagCodePre inp.errorMatches messages Level.Error
      (step1 pm inp.errorInOtherFiles unknown none).seen a ha]
  have e5 : List.filter Error.isEwp
      (modeErrors inp.mode inp.modeSpan
        (step2 pm inp.diagCodePre inp.errorMatches messages Level.Error
          (step1 pm inp.errorInOtherFiles unknown none).seen).seen) = [] := by
    rw [List.filter_eq_nil_iff]
    intro a ha
    simp [modeErrors_not_ewp inp.mode inp.modeSpan _ a ha]
  constructor
  · intro hy
    simp only [check_annotations, hy, if_true] at h
    simp only [Option.some.injEq] at h
    rw [← h, List.filter_append, List.filter_append, e1, e2, e5]
    rfl
  · intro hy
    simp only [check_annotations, hy, Bool.false_eq_true, if_false] at h
    simp only [Option.map_eq_some'] at h
    obtain ⟨lineErrs, hstep, heq⟩ := h
    simp only [step2_lowest] at hstep heq
    have e4 : List.filter Error.isEwp lineErrs = lineErrs := by
      rw [List.filter_eq_self]
      intro a ha
      exact step4lines_all_ewp _ _ _ _ _ hstep a ha
    have e3 : ∀ fu : List Message,
        List.filter Error.isEwp
          (if fu.isEmpty then [] else [Error.ErrorsWithoutPattern none fu])
          = (if fu.isEmpty then [] else [Error.ErrorsWithoutPattern none fu]) := by
      intro fu
      split <;> simp [Error.isEwp]
    have hline := step4lines_eq inp.path
      (inp.requireAnnotationsForLevel.getD (lowestFrom Level.Error inp.errorMatches))
      (step2 pm inp.diagCodePre inp.errorMatches messages Level.Error
        (step1 pm inp.errorInOtherFiles unknown none).seen).messages 0 lineErrs hstep
    rw [← heq, List.filter_append, List.filter_append, List.filter_append,
      List.filter_append, e1, e2, e3, e4, e5]
    simp only [specEwp, List.enum, hline]
    simp

/-- C4: matching is at-most-once.  The first two conjuncts are counting
invariants: across the foreign-file pass and the line-anchored pass,
the number of messages removed from the working collections equals the
number of successfully matched directives (each directive either
removes exactly one message or pushes exactly one not-found error, so
removed = directives − errors).  The third conjunct is the duplicated
directive scenario: two identical pattern directives aimed at a line
whose bucket holds exactly one matching message yield exactly one
successful removal and exactly one `PatternNotFound` for the second
directive. -/
theorem C4_at_most_once :
    (∀ (pm : String → String → Bool) (ps : List (String × Nat)) (u : List Message)
        (s : Option Nat),
      (step1 pm ps u s).unknown.length + ps.length
        = u.length + (step1 pm ps u s).errors.length) ∧
    (∀ (pm : String → String → Bool) (pre : String) (ems : List ErrorMatch)
        (messages : List (List Message)) (lowest : Level) (seen : Option Nat),
      countMsgs (step2 pm pre ems messages lowest seen).messages + ems.length
        = countMsgs messages + (step2 pm pre ems messages lowest seen).errors.length) ∧
    (∀ (pm : String → String → Bool) (pre pat : String) (sp : Nat) (lvl : Level)
        (line : Nat) (msg : Message) (messages : List (List Message))
        (lowest : Level) (seen : Option Nat),
      messages[line]? = some [msg] →
      (pm pat msg.message && msg.level == lvl) = true →
      step2 pm pre [⟨.Pattern pat sp lvl, line⟩, ⟨.Pattern pat sp lvl, line⟩]
          messages lowest seen
        = ⟨messages.set line [], updLowest lowest (.Pattern pat sp lvl), some sp,
            [.PatternNotFound pat (some line)]⟩) := by
  refine ⟨step1_count, step2_count, ?_⟩
  intro pm pre pat sp lvl line msg messages lowest seen h1 h2
  have hlt : line < messages.length := by
    rcases List.getElem?_eq_some_iff.mp h1 with ⟨hl, _⟩
    exact hl
  have hset : (messages.set line ([] : List Message))[line]? = some [] :=
    List.getElem?_set_self (by simpa using hlt)
  simp only [step2, h1, matchPred_pattern]
  simp only [findPos, h2, if_true, List.eraseIdx_cons_zero]
  simp only [hset]
  simp only [findPos]
  simp [notFound, kindSpan, updLowest_idem]

/-- C5: for a test in `Pass` or `Panic` mode, if at least one
error-match directive of any kind — foreign-file error pattern or
line-anchored pattern/code directive — is present, `check_annotations`
records a `PatternFoundInPassTest` error. -/
theorem C5_pattern_in_pass_test (pm : String → String → Bool) (inp : CheckInput)
    (messages : List (List Message)) (unknown : List Message) (errs : List Error)
    (hmode : inp.mode = .Pass ∨ inp.mode = .Panic)
    (hdir : inp.errorInOtherFiles ≠ [] ∨ inp.errorMatches ≠ [])
    (h : check_annotations pm inp messages unknown = some errs) :
    ∃ ms sp, Error.PatternFoundInPassTest ms sp ∈ errs := by
  have hseen : ((step2 pm inp.diagCodePre inp.errorMatches messages Level.Error
      (step1 pm inp.errorInOtherFiles unknown none).seen).seen).isSome = true := by
    cases hem : inp.errorMatches with
    | nil =>
      show ((step1 pm inp.errorInOtherFiles unknown none).seen).isSome = true
      rcases hdir with hp | hm2
      · exact step1_seen_isSome pm _ _ _ hp
      · exact absurd hem hm2
    | cons a l =>
      exact step2_seen_isSome pm _ _ _ _ _ (by simp)
  obtain ⟨sp, hsp⟩ := Option.isSome_iff_exists.mp hseen
  have hyolo : inp.mode.isYolo = false := by
    rcases hmode with h1 | h1 <;> rw [h1] <;> rfl
  have htail : modeErrors inp.mode inp.modeSpan
      (step2 pm inp.diagCodePre inp.errorMatches messages Level.Error
        (step1 pm inp.errorInOtherFiles unknown none).seen).seen
      = [.PatternFoundInPassTest inp.modeSpan sp] := by
    rcases hmode with h1 | h1 <;> rw [h1, hsp] <;> rfl
  simp only [check_annotations, hyolo, Bool.false_eq_true, if_false] at h
  simp only [Option.map_eq_some'] at h
  obtain ⟨lineErrs, hstep, heq⟩ := h
  refine ⟨inp.modeSpan, sp, ?_⟩
  rw [← heq, htail]
  simp

/-- C6: for a test in `Fail` mode with `require_patterns` set, if no
error-match directive of any kind is present, `check_annotations`
records a `NoPatternsFound` error. -/
theorem C6_no_patterns_found (pm : String → String → Bool) (inp : CheckInput)
    (messages : List (List Message)) (unknown : List Message) (errs : List Error)
    (hmode : inp.mode = .Fail true)
    (hp : inp.errorInOtherFiles = []) (hm : inp.errorMatches = [])
    (h : check_annotations pm inp messages unknown = some errs) :
    Error.NoPatternsFound ∈ errs := by
  have hyolo : inp.mode.isYolo = false := by rw [hmode]; rfl
  have hseen : (step2 pm inp.diagCodePre inp.errorMatches messages Level.Error
      (step1 pm inp.errorInOtherFiles unknown none).seen).seen = none := by
    rw [hm, hp]
    rfl
  have htail : modeErrors inp.mode inp.modeSpan
      (step2 pm inp.diagCodePre inp.errorMatches messages Level.Error
        (step1 pm inp.errorInOtherFiles unknown none).seen).seen
      = [.NoPatternsFound] := by
    rw [hmode, hseen]
    rfl
  simp only [check_annotations, hyolo, Bool.false_eq_true, if_false] at h
  simp only [Option.map_eq_some'] at h
  obtain ⟨lineErrs, hstep, heq⟩ := h
  rw [← heq, htail]
  simp

/-- C10: when the bucket at index 0 of the per-line message sequence is
empty (or the sequence itself is empty), `check_annotations` never hits
the `NonZeroUsize` panic of the exhaustiveness pass: every non-empty
reported bucket has a non-zero index, so the result is always `some`. -/
theorem C10_no_line_zero_panic (pm : String → String → Bool) (inp : CheckInput)
    (messages : List (List Message)) (unknown : List Message)
    (h : (messages[0]?).getD [] = []) :
    (check_annotations pm inp messages unknown).isSome = true := by
  cases hy : inp.mode.isYolo with
  | true => simp [check_annotations, hy]
  | false =>
    have h0 := step2_bucket0 pm inp.diagCodePre inp.errorMatches messages Level.Error
      (step1 pm inp.errorInOtherFiles unknown none).seen h
    simp only [check_annotations, hy, Bool.false_eq_true, if_false, Option.isSome_map']
    cases hm2 : (step2 pm inp.diagCodePre inp.errorMatches messages Level.Error
        (step1 pm inp.errorInOtherFiles unknown none).seen).messages with
    | nil => simp [step4lines]
    | cons b rest =>
      rw [hm2] at h0
      simp only [List.getElem?_cons_zero, Option.getD_some] at h0
      subst h0
      simp only [step4lines, filterMsgs, List.filter_nil, List.isEmpty_nil, if_true]
      exact step4lines_isSome_succ inp.path _ rest 0

/-! ## Concrete witnesses -/

/-- Witness for C3: a concrete non-Yolo run with one leftover
`Error`-level message at line 1 and no directives produces exactly the
`specEwp` list of `ErrorsWithoutPattern` errors. -/
theorem C3_errors_without_pattern_witness :
    ((Mode.Fail false).isYolo = true →
      List.filter Error.isEwp
        [Error.ErrorsWithoutPattern (some ("f", 1)) [⟨Level.Error, none, "m"⟩]] = []) ∧
    ((Mode.Fail false).isYolo = false →
      List.filter Error.isEwp
        [Error.ErrorsWithoutPattern (some ("f", 1)) [⟨Level.Error, none, "m"⟩]]
        = specEwp "f" ((none : Option Level).getD (lowestFrom Level.Error []))
            (step1 (fun _ _ => true) [] [] none).unknown
            (step2 (fun _ _ => true) "" [] [[], [⟨Level.Error, none, "m"⟩]] Level.Error
              (step1 (fun _ _ => true) [] [] none).seen).messages) :=
  C3_errors_without_pattern (fun _ _ => true) ⟨[], "", [], none, .Fail false, 0, "f"⟩
    [[], [⟨Level.Error, none, "m"⟩]] [] _ (by decide)

/-- Witness for C4: two identical pattern directives against a line
holding exactly one matching message produce one removal and exactly
one `PatternNotFound` for the second directive. -/
theorem C4_at_most_once_witness :
    step2 (fun _ _ => true) "" [⟨.Pattern "p" 0 .Error, 1⟩, ⟨.Pattern "p" 0 .Error, 1⟩]
        [[], [⟨Level.Error, none, "m"⟩]] Level.Error none
      = ⟨[[], []], updLowest Level.Error (.Pattern "p" 0 .Error), some 0,
          [.PatternNotFound "p" (some 1)]⟩ :=
  C4_at_most_once.2.2 (fun _ _ => true) "" "p" 0 .Error 1 ⟨Level.Error, none, "m"⟩
    [[], [⟨Level.Error, none, "m"⟩]] Level.Error none (by decide) (by decide)

/-- Witness for C5: a `Pass`-mode run with one foreign-file pattern
directive records `PatternFoundInPassTest`. -/
theorem C5_pattern_in_pass_test_witness :
    ∃ ms sp, Error.PatternFoundInPassTest ms sp ∈
      [Error.PatternNotFound "p" none, Error.PatternFoundInPassTest 3 7] :=
  C5_pattern_in_pass_test (fun _ _ => true) ⟨[("p", 7)], "", [], none, .Pass, 3, "file"⟩
    [] [] _ (Or.inl rfl) (Or.inl (by simp)) (by decide)

/-- Witness for C6: a `Fail { require_patterns := true }` run with no
directives records `NoPatternsFound`. -/
theorem C6_no_patterns_found_witness :
    Error.NoPatternsFound ∈ [Error.NoPatternsFound] :=
  C6_no_patterns_found (fun _ _ => true) ⟨[], "", [], none, .Fail true, 0, "f"⟩ [] [] _
    rfl rfl rfl (by decide)

/-- Witness for C10: a run over an empty bucket sequence completes
without hitting the line-0 panic. -/
theorem C10_no_line_zero_panic_witness :
    (check_annotations (fun _ _ => true) ⟨[], "", [], none, .Fail false, 0, "f"⟩
      [] []).isSome = true :=
  C10_no_line_zero_panic (fun _ _ => true) ⟨[], "", [], none, .Fail false, 0, "f"⟩ [] []
    (by decide)

end UiTest
